import Mathlib

/-!
Verification of the name-normalization audit scripts.

This file gives a shallow embedding of the decision logic of the four
Python scripts of the repository and proves properties about it:

* scripts/find_missing_credentials.py — the credential extractor
  `extract_potential_credentials` (four pattern heuristics) and the
  per-row guard of `analyze_csvs`;
* scripts/analyze_actual_output.py — the second credential extractor
  (here named `extract_potential_credentials_actual`), including its
  suffix-regex heuristic;
* scripts/identify_parsing_failures.py — the per-row failure checks
  (`has_job_title`, `has_emoji`, `has_trailing_hyphen`,
  `has_multiple_words_in_last_name`) and the per-row reason list of
  `analyze_failures`;
* scripts/add_credentials.py — `normalize`,
  `insert_credentials_alphabetically` and `load_credentials_to_add`.

Python strings are modelled as `String` (lists of code points); the
Python string operations used by the scripts (`split`, `strip`,
`replace`, `upper`, `in`, slicing after the first comma) are embedded as
structural functions over `List Char` so that every definition computes
by kernel reduction.  The regular expressions used by the scripts are
embedded by their meaning on code-point sequences; as in the scripts,
only ASCII-cased letters are case-folded, and the corner case of a
trailing newline before an anchor (which Python permits) is not
modelled, since no claim exercises it.
-/

namespace NameAudit

/-! ### Character and list helpers -/

/-- Uppercase ASCII letter, the character class of the scripts' regexes. -/
def isUpperAZ (c : Char) : Bool := 'A' ≤ c && c ≤ 'Z'

/-- Lowercase ASCII letter. -/
def isLowerAZ (c : Char) : Bool := 'a' ≤ c && c ≤ 'z'

/-- ASCII case fold to uppercase, as Python upper acts on the ASCII letters
appearing in the scripts' data. -/
def upChar (c : Char) : Char := if isLowerAZ c then Char.ofNat (c.toNat - 32) else c

/-- ASCII case fold to lowercase, for the case-insensitive regex matches. -/
def lowChar (c : Char) : Char := if isUpperAZ c then Char.ofNat (c.toNat + 32) else c

/-- Python whitespace characters recognised by str.strip and str.split. -/
def isWS (c : Char) : Bool :=
  c == ' ' || c == '\t' || c == '\n' || c == '\r' || c == '\x0b' || c == '\x0c'

/-- Embeds Python str.strip: drop whitespace from both ends. -/
def trimL (l : List Char) : List Char :=
  ((l.dropWhile isWS).reverse.dropWhile isWS).reverse

/-- Split a character list at every character satisfying p, keeping empty
segments, as Python str.split with an explicit separator does. -/
def splitIfL (p : Char → Bool) : List Char → List (List Char)
  | [] => [[]]
  | c :: rest =>
    match splitIfL p rest with
    | [] => if p c then [[], []] else [[c]]
    | h :: t => if p c then [] :: h :: t else (c :: h) :: t

/-- Embeds Python str.split with no argument: split on whitespace runs and
drop the empty segments. -/
def pySplitWS (l : List Char) : List (List Char) :=
  (splitIfL isWS l).filter (fun w => !w.isEmpty)

/-- Code-point lexicographic order on character lists, the order Python uses
to compare strings. -/
def lexLe : List Char → List Char → Bool
  | [], _ => true
  | _ :: _, [] => false
  | a :: as, b :: bs => decide (a < b) || (a == b && lexLe as bs)

/-! ### scripts/find_missing_credentials.py — extractor -/

/-- Embeds the regex ^[A-Z]{lo,hi}$ of the extractors: an all-caps token of
bounded length.  The scripts instantiate lo = 2 with hi = 10 and hi = 5. -/
def capsTok (lo hi : Nat) (l : List Char) : Bool :=
  decide (lo ≤ l.length) && decide (l.length ≤ hi) && l.all isUpperAZ

/-- Embeds the regex ^[A-Z]+-[A-Z]+$: exactly one hyphen separating two
nonempty all-caps runs. -/
def capsHyphenCaps (l : List Char) : Bool :=
  match splitIfL (fun c => c == '-') l with
  | [a, b] => !a.isEmpty && !b.isEmpty && a.all isUpperAZ && b.all isUpperAZ
  | _ => false

/-- Embeds part.replace with periods and spaces removed, as Pattern 3 of
find_missing_credentials.py normalises a comma fragment. -/
def stripDotSpace (l : List Char) : List Char :=
  l.filter (fun c => !(c == '.') && !(c == ' '))

/-- Embeds the body of the Pattern 3 loop of find_missing_credentials.py:
a stripped comma fragment contributes its dot-and-space-free form when that
form matches ^[A-Z]{2,10}$, or contains a hyphen and matches
^[A-Z]+-[A-Z]+$. -/
def fragCandidate (part : List Char) : Option String :=
  let normalized := stripDotSpace part
  if capsTok 2 10 normalized then some ⟨normalized⟩
  else if normalized.contains '-' && capsHyphenCaps normalized then some ⟨normalized⟩
  else none

/-- The stripped fragments after the first comma of the original name:
name.split with comma and maxsplit one, index one, stripped, split on the
remaining commas, each part stripped.  Splitting on every comma and
dropping the first segment yields the same fragment list. -/
def commaTail (name : String) : List (List Char) :=
  ((splitIfL (fun c => c == ',') name.data).drop 1).map trimL

/-- The stripped part of the original name before the first comma:
name.split on comma, index zero, stripped. -/
def preCommaPart (name : String) : List Char :=
  trimL ((splitIfL (fun c => c == ',') name.data).headI)

/-- Embeds extract_potential_credentials of find_missing_credentials.py
(lines 37 to 78).  Four pattern heuristics, in source order: the whole
last-name field if it is a short all-caps token; the whole last-name field
if it is an all-caps hyphenated token; each comma fragment of the original
name after dot-and-space removal; the final whitespace word of the
pre-comma part of the original name when there are at least two words. -/
def extract_potential_credentials (name last_name : String) : List String :=
  (if !last_name.data.isEmpty && capsTok 2 10 last_name.data then [last_name] else []) ++
  (if !last_name.data.isEmpty && last_name.data.contains '-' &&
      capsHyphenCaps last_name.data then [last_name] else []) ++
  (if name.data.contains ',' then (commaTail name).filterMap fragCandidate else []) ++
  (if 2 ≤ (pySplitWS (preCommaPart name)).length then
    (if capsTok 2 10 ((pySplitWS (preCommaPart name)).getLastD []) then
      [⟨(pySplitWS (preCommaPart name)).getLastD []⟩] else [])
   else [])

/-- Embeds the per-row guard of analyze_csvs of find_missing_credentials.py
(lines 101 to 109): a row is skipped when the input name or the output last
name is empty; otherwise the extractor runs on the pair. -/
def fmcRowCandidates (input_name output_last : String) : List String :=
  if input_name.data.isEmpty || output_last.data.isEmpty then []
  else extract_potential_credentials input_name output_last

/-! ### scripts/analyze_actual_output.py — extractor -/

/-- Python regex word character, restricted to ASCII as in the data the
scripts process. -/
def isWordChar (c : Char) : Bool :=
  isUpperAZ c || isLowerAZ c || ('0' ≤ c && c ≤ '9') || c == '_'

/-- The character class [A-Za-z\-\.] of the extraction search in
analyze_actual_output.py. -/
def isClassChar (c : Char) : Bool :=
  isUpperAZ c || isLowerAZ c || c == '-' || c == '.'

/-- Does k occur as a suffix of l with a regex word boundary before it?
Embeds the tail of the regexes .*\b(k)\.?$ once the optional final period
has been removed; every keyword starts with a letter, so the boundary
amounts to the preceding character not being a word character. -/
def suffixWithBoundary (k l : List Char) : Bool :=
  decide (k.length ≤ l.length) && l.drop (l.length - k.length) == k &&
    (l.length == k.length || !isWordChar (l.getD (l.length - k.length - 1) ' '))

/-- The first alternation of credential_patterns in
analyze_actual_output.py (line 42). -/
def CRED_SUFFIX_KEYWORDS_A : List String :=
  ["Jr", "Sr", "II", "III", "IV", "V", "PhD", "MD", "MBA", "MS", "MA", "BS", "BA",
   "DDS", "DVM", "EdD", "JD", "LLM", "CPA", "PE", "RN", "LPN", "LCSW", "PMP",
   "CSM", "CISSP", "CISM"]

/-- The second alternation of credential_patterns in
analyze_actual_output.py (line 43). -/
def CRED_SUFFIX_KEYWORDS_B : List String := ["Esq", "Ret", "Retired"]

/-- Embeds the case-insensitive regex .*\b(kw1|kw2|...)\.?$ used by
Pattern 4 of analyze_actual_output.py: after case folding, the text ends
with one of the keywords, optionally followed by a single period, with a
word boundary before the keyword. -/
def credEndsWith (kws : List String) (l : List Char) : Bool :=
  let low := l.map lowChar
  let core := if low.getLastD ' ' == '.' then low.dropLast else low
  kws.any (fun kw => suffixWithBoundary (kw.data.map lowChar) core)

/-- Is a regex word boundary present at position p of l? -/
def boundaryAt (l : List Char) (p : Nat) : Bool :=
  if p == 0 then isWordChar (l.getD 0 ' ')
  else isWordChar (l.getD (p - 1) ' ') != isWordChar (l.getD p ' ')

/-- Embeds re.search of \b([A-Za-z\-\.]+)\.?$ in analyze_actual_output.py
(line 49): the matched group is the trailing run of class characters
starting at the leftmost position that lies in the run and carries a word
boundary; when no such position exists the search fails. -/
def searchTrailingToken (l : List Char) : Option (List Char) :=
  let start := l.length - (l.reverse.takeWhile isClassChar).length
  match (List.range l.length).filter (fun p => decide (start ≤ p) && boundaryAt l p) with
  | [] => none
  | p :: _ => some (l.drop p)

/-- Embeds extract_potential_credentials of analyze_actual_output.py
(lines 12 to 53), here suffixed _actual to keep both extractors in one
namespace.  The function returns nothing when the last name is empty or
equal to the full original name; otherwise its four patterns contribute,
in source order: a short all-caps last name (two to five letters); a last
name containing a period of length at most ten; a last name containing a
hyphen of length at most fifteen; and, for each of the two credential
suffix regexes that the last name matches, the trailing token found by the
extraction search. -/
def extract_potential_credentials_actual (name_str last_name_str : String) : List String :=
  if last_name_str.data.isEmpty || last_name_str == name_str then []
  else
    (if capsTok 2 5 last_name_str.data then [last_name_str] else []) ++
    (if last_name_str.data.contains '.' && decide (last_name_str.data.length ≤ 10) then
      [last_name_str] else []) ++
    (if last_name_str.data.contains '-' && decide (last_name_str.data.length ≤ 15) then
      [last_name_str] else []) ++
    ((if credEndsWith CRED_SUFFIX_KEYWORDS_A last_name_str.data then
      (match searchTrailingToken last_name_str.data with
       | some g => [(⟨g⟩ : String)]
       | none => []) else []) ++
     (if credEndsWith CRED_SUFFIX_KEYWORDS_B last_name_str.data then
      (match searchTrailingToken last_name_str.data with
       | some g => [(⟨g⟩ : String)]
       | none => []) else []))

/-! ### scripts/identify_parsing_failures.py — failure checks -/

/-- The JOB_KEYWORDS constant of identify_parsing_failures.py. -/
def JOB_KEYWORDS : List String :=
  ["CEO", "CFO", "COO", "CTO", "President", "VP", "Vice President",
   "Director", "Manager", "Executive", "Founder", "Owner", "Partner",
   "Coach", "Consultant", "Specialist", "Analyst", "Coordinator",
   "Administrator", "Officer", "Leader", "Head", "Chief", "Principal",
   "Speaker", "Author", "Photographer", "Designer", "Developer",
   "Engineer", "Architect", "Strategist", "Advisor", "Expert"]

/-- Embeds the case-insensitive whole-word search \b(kw)\b: after case
folding, kw occurs at a position with word boundaries on both sides; the
keywords begin and end with letters, so the boundaries amount to the
neighbouring characters not being word characters. -/
def occursAsWord (kw text : List Char) : Bool :=
  let k := kw.map lowChar
  let l := text.map lowChar
  (List.range (l.length + 1)).any (fun i =>
    (l.drop i).take k.length == k &&
    (i == 0 || !isWordChar (l.getD (i - 1) ' ')) &&
    (i + k.length == l.length || !isWordChar (l.getD (i + k.length) ' ')))

/-- Embeds has_job_title of identify_parsing_failures.py (lines 27 to 34). -/
def has_job_title (text : String) : Bool :=
  if text.data.isEmpty then false
  else JOB_KEYWORDS.any (fun kw => occursAsWord kw.data text.data)

/-- The characters of the emoji_pattern character class of
identify_parsing_failures.py (line 41), as the code points stored in the
source file; the class includes a literal question mark. -/
def EMOJI_CHARS : List Char :=
  ['\u00e2', '\u20ac', '\u00a2', '\u0153', '\u0160', '?', '\u00a4',
   '\u00ef', '\u00b8', '\u00ad', '\u00f0', '\u0178', '\u0152', '\u2019',
   '\u00aa', '\u2018', '\u017d', '\u00af', '\u0161', '\u00a1', '\u201d',
   '\u00a5', '\u00a8', '\u02c6', '\u2030', '\u2020', '\u2021']

/-- Embeds has_emoji of identify_parsing_failures.py (lines 36 to 42). -/
def has_emoji (text : String) : Bool :=
  if text.data.isEmpty then false
  else text.data.any (fun c => EMOJI_CHARS.contains c)

/-- Embeds has_trailing_hyphen of identify_parsing_failures.py
(lines 44 to 48). -/
def has_trailing_hyphen (text : String) : Bool :=
  if text.data.isEmpty then false
  else (trimL text.data).getLastD ' ' == '-'

/-- Embeds has_multiple_words_in_last_name of identify_parsing_failures.py
(lines 50 to 61): more than two whitespace words, or exactly two words
with no hyphen anywhere in the field. -/
def has_multiple_words_in_last_name (last_name : String) : Bool :=
  if last_name.data.isEmpty then false
  else
    if 2 < (pySplitWS last_name.data).length then true
    else if (pySplitWS last_name.data).length == 2 && !(last_name.data.contains '-') then true
    else false

/-- Embeds the failure_reasons accumulation of analyze_failures in
identify_parsing_failures.py (lines 80 to 124) for one row: the two output
fields are stripped, then the checks run in source order and each
contributes its reason tag. -/
def failureReasons (first_name last_name : String) : List String :=
  (if (trimL first_name.data).isEmpty && (trimL last_name.data).isEmpty then ["empty_names"]
   else if (trimL first_name.data).isEmpty then ["empty_first_name"]
   else if (trimL last_name.data).isEmpty then ["empty_last_name"]
   else []) ++
  (if has_job_title ⟨trimL first_name.data⟩ then ["job_title_in_first_name"] else []) ++
  (if has_job_title ⟨trimL last_name.data⟩ then ["job_title_in_last_name"] else []) ++
  (if has_emoji ⟨trimL first_name.data⟩ then ["emoji_in_first_name"] else []) ++
  (if has_emoji ⟨trimL last_name.data⟩ then ["emoji_in_last_name"] else []) ++
  (if has_trailing_hyphen ⟨trimL first_name.data⟩ then ["trailing_hyphen_in_first_name"] else []) ++
  (if has_trailing_hyphen ⟨trimL last_name.data⟩ then ["trailing_hyphen_in_last_name"] else []) ++
  (if has_multiple_words_in_last_name ⟨trimL last_name.data⟩ then
    ["multiple_words_in_last_name"] else [])

/-! ### scripts/add_credentials.py — catalog merger -/

/-- Embeds the normalize helper of insert_credentials_alphabetically in
add_credentials.py (lines 41 to 42): remove every period and case fold to
uppercase. -/
def normalize (s : String) : String :=
  ⟨(s.data.filter (fun c => !(c == '.'))).map upChar⟩

/-- The sort order of add_credentials.py line 50: ascending by the pair of
the normalized key and the literal, each compared in Python string
order. -/
def credLE (x y : String) : Prop :=
  lexLe (normalize x).data (normalize y).data = true ∧
    ((normalize x).data = (normalize y).data → lexLe x.data y.data = true)

instance : DecidableRel credLE := fun x y =>
  inferInstanceAs (Decidable (lexLe (normalize x).data (normalize y).data = true ∧
    ((normalize x).data = (normalize y).data → lexLe x.data y.data = true)))

/-- Embeds insert_credentials_alphabetically of add_credentials.py
(lines 38 to 52): keep the candidates whose normalized key matches no
existing entry, append them to the existing list, and sort the result by
the pair of normalized key and literal.  Python uses a stable sort, but as
the comparison key contains the literal itself the sorted list is the same
for every correct sorting algorithm; insertion sort is used here. -/
def insert_credentials_alphabetically (existing to_add : List String) :
    List String × List String :=
  let new_creds := to_add.filter (fun c => !(existing.any (fun e => normalize e == normalize c)))
  (List.insertionSort credLE (existing ++ new_creds), new_creds)

/-- Embeds load_credentials_to_add of add_credentials.py (lines 12 to 21):
strip each line and keep the nonempty ones that do not start with a hash
character. -/
def load_credentials_to_add (lines : List String) : List String :=
  (lines.map (fun l => (⟨trimL l.data⟩ : String))).filter
    (fun l => !l.data.isEmpty && !(l.data.headI == '#'))

/-! ### Order lemmas for the sort relation -/

theorem lexLe_refl : ∀ l : List Char, lexLe l l = true
  | [] => rfl
  | a :: as => by simp [lexLe, lexLe_refl as]

theorem lexLe_total : ∀ a b : List Char, lexLe a b = true ∨ lexLe b a = true
  | [], _ => Or.inl rfl
  | _ :: _, [] => Or.inr rfl
  | a :: as, b :: bs => by
    rcases lt_trichotomy a b with h | h | h
    · left; simp [lexLe, h]
    · subst h
      rcases lexLe_total as bs with h | h
      · left; simp [lexLe, h]
      · right; simp [lexLe, h]
    · right; simp [lexLe, h]

theorem lexLe_trans : ∀ a b c : List Char,
    lexLe a b = true → lexLe b c = true → lexLe a c = true
  | [], _, _, _, _ => rfl
  | _ :: _, [], _, h, _ => by simp [lexLe] at h
  | _ :: _, _ :: _, [], _, h => by simp [lexLe] at h
  | a :: as, b :: bs, c :: cs, h1, h2 => by
    simp only [lexLe, Bool.or_eq_true, Bool.and_eq_true, decide_eq_true_eq,
      beq_iff_eq] at h1 h2 ⊢
    rcases h1 with h1 | ⟨rfl, h1⟩ <;> rcases h2 with h2 | ⟨rfl, h2⟩
    · exact Or.inl (lt_trans h1 h2)
    · exact Or.inl h1
    · exact Or.inl h2
    · exact Or.inr ⟨rfl, lexLe_trans as bs cs h1 h2⟩

theorem lexLe_antisymm : ∀ a b : List Char, lexLe a b = true → lexLe b a = true → a = b
  | [], [], _, _ => rfl
  | [], _ :: _, _, h => by simp [lexLe] at h
  | _ :: _, [], h, _ => by simp [lexLe] at h
  | a :: as, b :: bs, h1, h2 => by
    simp only [lexLe, Bool.or_eq_true, Bool.and_eq_true, decide_eq_true_eq,
      beq_iff_eq] at h1 h2
    rcases h1 with h1 | ⟨rfl, h1⟩
    · rcases h2 with h2 | ⟨e, h2⟩
      · exact absurd (lt_trans h1 h2) (lt_irrefl a)
      · exact absurd h1 (e ▸ lt_irrefl b)
    · rcases h2 with h2 | ⟨_, h2⟩
      · exact absurd h2 (lt_irrefl a)
      · rw [lexLe_antisymm as bs h1 h2]

instance : IsTotal String credLE := by
  constructor
  intro x y
  rcases lexLe_total (normalize x).data (normalize y).data with h | h
  · by_cases e : (normalize x).data = (normalize y).data
    · rcases lexLe_total x.data y.data with h2 | h2
      · exact Or.inl ⟨h, fun _ => h2⟩
      · exact Or.inr ⟨e ▸ lexLe_refl _, fun _ => h2⟩
    · exact Or.inl ⟨h, fun e2 => absurd e2 e⟩
  · by_cases e : (normalize y).data = (normalize x).data
    · rcases lexLe_total x.data y.data with h2 | h2
      · exact Or.inl ⟨e ▸ lexLe_refl _, fun _ => h2⟩
      · exact Or.inr ⟨h, fun _ => h2⟩
    · exact Or.inr ⟨h, fun e2 => absurd e2 e⟩

instance : IsTrans String credLE := by
  constructor
  intro a b c hab hbc
  obtain ⟨h1, i1⟩ := hab
  obtain ⟨h2, i2⟩ := hbc
  refine ⟨lexLe_trans _ _ _ h1 h2, fun e => ?_⟩
  have eb : (normalize a).data = (normalize b).data := lexLe_antisymm _ _ h1 (e ▸ h2)
  exact lexLe_trans _ _ _ (i1 eb) (i2 (eb ▸ e))

/-! ### Helper lemmas -/

/-- A fragment candidate is the dot-and-space-free form of the fragment and
matches one of the two credential token shapes. -/
theorem fragCandidate_eq_some {part : List Char} {c : String}
    (h : fragCandidate part = some c) :
    c = ⟨stripDotSpace part⟩ ∧
      (capsTok 2 10 (stripDotSpace part) = true ∨
        ((stripDotSpace part).contains '-' = true ∧
          capsHyphenCaps (stripDotSpace part) = true)) := by
  simp only [fragCandidate] at h
  by_cases b1 : capsTok 2 10 (stripDotSpace part) = true
  · rw [if_pos b1] at h
    exact ⟨(Option.some.inj h).symm, Or.inl b1⟩
  · rw [if_neg b1] at h
    by_cases b2 : ((stripDotSpace part).contains '-' &&
        capsHyphenCaps (stripDotSpace part)) = true
    · rw [if_pos b2] at h
      simp only [Bool.and_eq_true] at b2
      exact ⟨(Option.some.inj h).symm, Or.inr b2⟩
    · rw [if_neg b2] at h
      exact absurd h (by simp)

/-! ### Claim theorems -/

/-- C1: whenever the last-name field matches ^[A-Z]{2,10}$ the extractor of
find_missing_credentials.py yields that field as a CredentialResidue
candidate, whatever the original name is; for the row with original
"Jane Doe, MBA" and last name "MBA" the distinct candidate list is exactly
["MBA"] (the token arises from two heuristics, but as a Finding is emitted
per distinct qualifying candidate, exactly one CredentialResidue Finding
with extracted token "MBA" results). -/
theorem C1_short_caps_last_is_candidate :
    (∀ name last_name : String, capsTok 2 10 last_name.data = true →
      last_name ∈ extract_potential_credentials name last_name) ∧
    (extract_potential_credentials "Jane Doe, MBA" "MBA").dedup = ["MBA"] := by
  constructor
  · intro name last h
    have h2 : 2 ≤ last.data.length := by
      have h' := h
      unfold capsTok at h'
      simp only [Bool.and_eq_true, decide_eq_true_eq] at h'
      exact h'.1.1
    have hne : last.data.isEmpty = false := by
      cases e : last.data with
      | nil => rw [e] at h2; simp at h2
      | cons a l => rfl
    unfold extract_potential_credentials
    simp [hne, h, List.mem_append]
  · decide

/-- Witness for C1 at the spec's end-to-end example row. -/
theorem C1_short_caps_last_is_candidate_witness :
    ("MBA" : String) ∈ extract_potential_credentials "Jane Doe, MBA" "MBA" :=
  C1_short_caps_last_is_candidate.1 "Jane Doe, MBA" "MBA" (by decide)

/-- C2: the last-name field is flagged by has_multiple_words_in_last_name
exactly when it has three or more whitespace words, or exactly two words and
no hyphen anywhere in the field; "Smith-Jones" is never flagged and
"Business Coach" always is. -/
theorem C2_multi_word_last_name_rule :
    (∀ last_name : String, has_multiple_words_in_last_name last_name = true ↔
      (3 ≤ (pySplitWS last_name.data).length ∨
        ((pySplitWS last_name.data).length = 2 ∧ last_name.data.contains '-' = false))) ∧
    has_multiple_words_in_last_name "Smith-Jones" = false ∧
    has_multiple_words_in_last_name "Business Coach" = true := by
  refine ⟨?_, by decide, by decide⟩
  intro last
  unfold has_multiple_words_in_last_name
  by_cases he : last.data.isEmpty = true
  · have hd : last.data = [] := by
      cases e : last.data with
      | nil => rfl
      | cons a l => rw [e] at he; simp [List.isEmpty] at he
    rw [hd]
    decide
  · rw [if_neg he]
    by_cases h3 : 2 < (pySplitWS last.data).length
    · rw [if_pos h3]
      exact iff_of_true rfl (Or.inl h3)
    · rw [if_neg h3]
      by_cases h2 : ((pySplitWS last.data).length == 2 &&
          !(last.data.contains '-')) = true
      · rw [if_pos h2]
        simp only [Bool.and_eq_true, beq_iff_eq, Bool.not_eq_true'] at h2
        exact iff_of_true rfl (Or.inr h2)
      · rw [if_neg h2]
        simp only [Bool.and_eq_true, beq_iff_eq, Bool.not_eq_true'] at h2
        refine iff_of_false (by simp) ?_
        rintro (h | h)
        · omega
        · exact h2 h

/-- C3: a candidate whose normalized key equals the normalized key of some
existing catalog entry never appears in the added output of the merger, and
merging ["M.D.", "MD"] into a catalog containing "MD" adds nothing. -/
theorem C3_merge_dedup_by_normalized_key :
    (∀ existing to_add : List String, ∀ c : String,
      (∃ e ∈ existing, normalize e = normalize c) →
        c ∉ (insert_credentials_alphabetically existing to_add).2) ∧
    (insert_credentials_alphabetically ["MD"] ["M.D.", "MD"]).2 = [] := by
  refine ⟨?_, by decide⟩
  rintro existing to_add c ⟨e, he, hnorm⟩ hmem
  simp only [insert_credentials_alphabetically] at hmem
  have hp := List.of_mem_filter hmem
  simp only [Bool.not_eq_true', List.any_eq_false, beq_iff_eq] at hp
  exact hp e he hnorm

/-- Witness for C3 at the spec's dedup example. -/
theorem C3_merge_dedup_by_normalized_key_witness :
    ("M.D." : String) ∉ (insert_credentials_alphabetically ["MD"] ["M.D.", "MD"]).2 :=
  C3_merge_dedup_by_normalized_key.1 ["MD"] ["M.D.", "MD"] "M.D."
    ⟨"MD", by decide, by decide⟩

/-- C4 counterexample: merging the candidates "M.D." and "MD" into the empty
catalog keeps both entries even though their normalized keys agree, so the
merged catalog is not in general free of duplicate normalized keys. -/
theorem C4_cex_duplicate_normalized_keys :
    (insert_credentials_alphabetically [] ["M.D.", "MD"]).1 = ["M.D.", "MD"] ∧
    normalize "M.D." = normalize "MD" := by decide

/-- C4 amended: the merged catalog is always sorted ascending by the pair of
normalized key and literal; its normalized keys are pairwise distinct
provided the input catalog's keys are distinct and the candidates' keys are
pairwise distinct; and merging ["PhD", "MBA", "CPA"] into the empty catalog
yields ["CPA", "MBA", "PhD"]. -/
theorem C4_sorted_and_conditionally_unique :
    ∀ existing to_add : List String,
      List.Sorted credLE (insert_credentials_alphabetically existing to_add).1 ∧
      ((existing.map normalize).Nodup → (to_add.map normalize).Nodup →
        ((insert_credentials_alphabetically existing to_add).1.map normalize).Nodup) ∧
      (insert_credentials_alphabetically [] ["PhD", "MBA", "CPA"]).1 =
        ["CPA", "MBA", "PhD"] := by
  intro existing to_add
  refine ⟨List.sorted_insertionSort credLE _, ?_, by decide⟩
  intro hex hta
  have hperm : List.Perm (insert_credentials_alphabetically existing to_add).1
      (existing ++ (insert_credentials_alphabetically existing to_add).2) :=
    List.perm_insertionSort credLE _
  rw [(hperm.map normalize).nodup_iff, List.map_append, List.nodup_append]
  refine ⟨hex, ?_, ?_⟩
  · exact List.Nodup.sublist ((List.filter_sublist to_add).map normalize) hta
  · intro a ha hb
    obtain ⟨e, he, rfl⟩ := List.mem_map.1 ha
    obtain ⟨d, hd, hde⟩ := List.mem_map.1 hb
    have hp := List.of_mem_filter hd
    simp only [Bool.not_eq_true', List.any_eq_false, beq_iff_eq] at hp
    exact hp e he hde.symm

/-- Witness for C4 at the spec's ordering example. -/
theorem C4_sorted_and_conditionally_unique_witness :
    List.Sorted credLE (insert_credentials_alphabetically [] ["PhD", "MBA", "CPA"]).1 ∧
    ((insert_credentials_alphabetically [] ["PhD", "MBA", "CPA"]).1.map normalize).Nodup := by
  obtain ⟨h1, h2, h3⟩ := C4_sorted_and_conditionally_unique [] ["PhD", "MBA", "CPA"]
  exact ⟨h1, h2 (by decide) (by decide)⟩

/-- C5 counterexample: a row whose non-empty last name is character for
character equal to the original name still yields a CredentialResidue
candidate from the find_missing_credentials.py extractor, whose caller only
skips rows with an empty name or last name. -/
theorem C5_cex_equal_last_and_original_still_flagged :
    extract_potential_credentials "MD" "MD" = ["MD"] ∧
    fmcRowCandidates "MD" "MD" = ["MD"] := by decide

/-- C5 amended: the analyze_actual_output.py extractor emits no candidate
when the last name is empty or equal to the original name, and the
find_missing_credentials.py pipeline emits no candidate when the last name
is empty; only the emptiness half of the guard exists in the latter. -/
theorem C5_guard_empty_or_equal :
    ∀ name last_name : String,
      ((last_name = "" ∨ last_name = name) →
        extract_potential_credentials_actual name last_name = []) ∧
      (last_name = "" → fmcRowCandidates name last_name = []) := by
  intro name last
  constructor
  · rintro (rfl | rfl)
    · unfold extract_potential_credentials_actual
      rw [show (("" : String).data.isEmpty) = true from rfl, Bool.true_or]
      simp
    · unfold extract_potential_credentials_actual
      simp
  · rintro rfl
    unfold fmcRowCandidates
    rw [show (("" : String).data.isEmpty) = true from rfl, Bool.or_true]
    simp

/-- Witness for C5 at an empty last-name row. -/
theorem C5_guard_empty_or_equal_witness :
    extract_potential_credentials_actual "Jane" "" = [] ∧
    fmcRowCandidates "Jane" "" = [] :=
  ⟨(C5_guard_empty_or_equal "Jane" "").1 (Or.inl rfl),
   (C5_guard_empty_or_equal "Jane" "").2 rfl⟩

/-- C6 counterexample: for original "John ABC" and last name "Smith" the
extractor yields the candidate "ABC" although the original contains no
comma and the candidate differs from the last-name field, so the candidate
arises from none of the three heuristics named by the claim; it comes from
the fourth heuristic, the final word of the pre-comma part. -/
theorem C6_cex_fourth_heuristic :
    extract_potential_credentials "John ABC" "Smith" = ["ABC"] ∧
    ("John ABC" : String).data.contains ',' = false ∧
    (("ABC" : String) == "Smith") = false := by decide

/-- C6 amended: every candidate token of the find_missing_credentials.py
extractor arises from one of exactly four heuristics: the whole last-name
field as a short all-caps token, the whole last-name field as an all-caps
hyphenated token, a dot-and-space-stripped fragment after the first comma
of the original matching one of those two shapes, or the final whitespace
word of the original's pre-comma part (when that part has at least two
words) matching the short all-caps shape. -/
theorem C6_candidates_from_four_heuristics :
    ∀ name last_name c : String, c ∈ extract_potential_credentials name last_name →
      (c = last_name ∧ capsTok 2 10 last_name.data = true) ∨
      (c = last_name ∧ last_name.data.contains '-' = true ∧
        capsHyphenCaps last_name.data = true) ∨
      (name.data.contains ',' = true ∧ ∃ part ∈ commaTail name,
        c = ⟨stripDotSpace part⟩ ∧
        (capsTok 2 10 (stripDotSpace part) = true ∨
          ((stripDotSpace part).contains '-' = true ∧
            capsHyphenCaps (stripDotSpace part) = true))) ∨
      (2 ≤ (pySplitWS (preCommaPart name)).length ∧
        c = ⟨(pySplitWS (preCommaPart name)).getLastD []⟩ ∧
        capsTok 2 10 ((pySplitWS (preCommaPart name)).getLastD []) = true) := by
  intro name last c hc
  unfold extract_potential_credentials at hc
  rcases List.mem_append.1 hc with hc12 | h4
  · rcases List.mem_append.1 hc12 with hc1 | h3
    · rcases List.mem_append.1 hc1 with h1 | h2
      · by_cases b1 : (!last.data.isEmpty && capsTok 2 10 last.data) = true
        · rw [if_pos b1] at h1
          simp only [Bool.and_eq_true] at b1
          exact Or.inl ⟨List.mem_singleton.1 h1, b1.2⟩
        · rw [if_neg b1] at h1
          exact absurd h1 (List.not_mem_nil c)
      · by_cases b2 : (!last.data.isEmpty && last.data.contains '-' &&
            capsHyphenCaps last.data) = true
        · rw [if_pos b2] at h2
          simp only [Bool.and_eq_true] at b2
          exact Or.inr (Or.inl ⟨List.mem_singleton.1 h2, b2.1.2, b2.2⟩)
        · rw [if_neg b2] at h2
          exact absurd h2 (List.not_mem_nil c)
    · by_cases b3 : name.data.contains ',' = true
      · rw [if_pos b3] at h3
        obtain ⟨part, hpart, hfrag⟩ := List.mem_filterMap.1 h3
        exact Or.inr (Or.inr (Or.inl ⟨b3, part, hpart, fragCandidate_eq_some hfrag⟩))
      · rw [if_neg b3] at h3
        exact absurd h3 (List.not_mem_nil c)
  · by_cases b4 : 2 ≤ (pySplitWS (preCommaPart name)).length
    · rw [if_pos b4] at h4
      by_cases b5 : capsTok 2 10 ((pySplitWS (preCommaPart name)).getLastD []) = true
      · rw [if_pos b5] at h4
        exact Or.inr (Or.inr (Or.inr ⟨b4, List.mem_singleton.1 h4, b5⟩))
      · rw [if_neg b5] at h4
        exact absurd h4 (List.not_mem_nil c)
    · rw [if_neg b4] at h4
      exact absurd h4 (List.not_mem_nil c)

/-- Witness for C6 at the row exercising the fourth heuristic. -/
theorem C6_candidates_from_four_heuristics_witness :
    (("ABC" : String) = "Smith" ∧ capsTok 2 10 ("Smith" : String).data = true) ∨
    (("ABC" : String) = "Smith" ∧ ("Smith" : String).data.contains '-' = true ∧
      capsHyphenCaps ("Smith" : String).data = true) ∨
    (("John ABC" : String).data.contains ',' = true ∧
      ∃ part ∈ commaTail "John ABC",
        ("ABC" : String) = ⟨stripDotSpace part⟩ ∧
        (capsTok 2 10 (stripDotSpace part) = true ∨
          ((stripDotSpace part).contains '-' = true ∧
            capsHyphenCaps (stripDotSpace part) = true))) ∨
    (2 ≤ (pySplitWS (preCommaPart "John ABC")).length ∧
      ("ABC" : String) = ⟨(pySplitWS (preCommaPart "John ABC")).getLastD []⟩ ∧
      capsTok 2 10 ((pySplitWS (preCommaPart "John ABC")).getLastD []) = true) :=
  C6_candidates_from_four_heuristics "John ABC" "Smith" "ABC" (by decide)

/-- C7 counterexample: for the row with original "Maria Garcia-Lopez" and
output last name "Garcia-Lopez", the analyze_actual_output.py extractor
flags the hyphenated surname as a potential credential, so the row does not
produce zero Findings. -/
theorem C7_cex_hyphenated_surname_flagged :
    extract_potential_credentials_actual "Maria Garcia-Lopez" "Garcia-Lopez" =
      ["Garcia-Lopez"] := by decide

/-- C7 amended: the Maria Garcia-Lopez row yields no parsing-failure reason
and no candidate from the find_missing_credentials.py extractor, but the
hyphen heuristic of analyze_actual_output.py yields the single candidate
"Garcia-Lopez". -/
theorem C7_garcia_lopez_row :
    failureReasons "Maria" "Garcia-Lopez" = [] ∧
    extract_potential_credentials "Maria Garcia-Lopez" "Garcia-Lopez" = [] ∧
    fmcRowCandidates "Maria Garcia-Lopez" "Garcia-Lopez" = [] ∧
    extract_potential_credentials_actual "Maria Garcia-Lopez" "Garcia-Lopez" =
      ["Garcia-Lopez"] := by
  exact ⟨by decide, by decide, by decide, by decide⟩

/-- C8: a row whose two output fields are empty yields exactly the one
failure reason empty_names, and neither credential extractor pipeline
produces a candidate for it, whatever the original name string is. -/
theorem C8_empty_row_single_finding :
    ∀ original : String,
      failureReasons "" "" = ["empty_names"] ∧
      fmcRowCandidates original "" = [] ∧
      extract_potential_credentials_actual original "" = [] := by
  intro original
  refine ⟨by decide, ?_, ?_⟩
  · unfold fmcRowCandidates
    rw [show (("" : String).data.isEmpty) = true from rfl, Bool.or_true]
    simp
  · unfold extract_potential_credentials_actual
    rw [show (("" : String).data.isEmpty) = true from rfl, Bool.true_or]
    simp

/-- C9 counterexample: the merger itself does not drop an empty-string
candidate: merging the single candidate "" into the empty catalog adds it
to both the catalog and the added output. -/
theorem C9_cex_merger_adds_empty_string :
    (insert_credentials_alphabetically [] [""]).2 = [""] ∧
    (insert_credentials_alphabetically [] [""]).1 = [""] := by decide

/-- C9 amended: empty candidates are dropped before the merger, by the
loader: no line loaded by load_credentials_to_add is the empty string, so
the added output of a merge fed from the loader never contains the empty
string; the merger itself performs no such filtering. -/
theorem C9_loader_drops_empty_lines :
    ∀ lines existing : List String, ∀ c : String,
      (c ∈ load_credentials_to_add lines → c ≠ "") ∧
      (c ∈ (insert_credentials_alphabetically existing (load_credentials_to_add lines)).2 →
        c ≠ "") := by
  intro lines existing c
  have hload : c ∈ load_credentials_to_add lines → c ≠ "" := by
    intro hm heq
    subst heq
    have hp := List.of_mem_filter hm
    exact absurd hp (by decide)
  refine ⟨hload, fun hm => hload ?_⟩
  simp only [insert_credentials_alphabetically] at hm
  exact List.mem_of_mem_filter hm

/-- Witness for C9 at a one-line credentials file. -/
theorem C9_loader_drops_empty_lines_witness :
    ("MD" : String) ≠ "" :=
  (C9_loader_drops_empty_lines ["MD"] [] "MD").1 (by decide)

/-- C10: the merged catalog is a permutation of the input catalog followed
by the added candidates, so every literal of the input catalog, duplicate
normalized keys included, appears verbatim in the merged output. -/
theorem C10_merge_preserves_existing_entries :
    ∀ existing to_add : List String,
      List.Perm (insert_credentials_alphabetically existing to_add).1
        (existing ++ (insert_credentials_alphabetically existing to_add).2) ∧
      ∀ c, c ∈ existing → c ∈ (insert_credentials_alphabetically existing to_add).1 := by
  intro existing to_add
  have hperm : List.Perm (insert_credentials_alphabetically existing to_add).1
      (existing ++ (insert_credentials_alphabetically existing to_add).2) :=
    List.perm_insertionSort credLE _
  exact ⟨hperm, fun c hc => hperm.mem_iff.2 (List.mem_append_left _ hc)⟩

/-- Witness for C10 at a catalog with mixed-case entries. -/
theorem C10_merge_preserves_existing_entries_witness :
    List.Perm (insert_credentials_alphabetically ["b", "a"] ["A", "c"]).1
      (["b", "a"] ++ (insert_credentials_alphabetically ["b", "a"] ["A", "c"]).2) ∧
    ("b" : String) ∈ (insert_credentials_alphabetically ["b", "a"] ["A", "c"]).1 := by
  obtain ⟨h1, h2⟩ := C10_merge_preserves_existing_entries ["b", "a"] ["A", "c"]
  exact ⟨h1, h2 "b" (by decide)⟩

end NameAudit
